import Mathlib

/-!
Shallow embedding of `src/store/performance_log.py` (Agent of Sats):
an append-only event log backed by a SQLite table
`events(seq INTEGER PRIMARY KEY AUTOINCREMENT, ts REAL, type TEXT, payload TEXT)`,
together with the derived PnL analytics.

Modelling choices:
* Python floats (`ts`, `realized_pnl`, `window_hours`) are modelled as `ℚ`.
* A JSON payload object is an association list `List (String × PValue)`;
  `dict.get(k, default)` is first-match lookup with a default.
* The ambient clock `time.time()` is passed explicitly as a `now : ℚ`
  argument wherever the Python code reads it.
* Python expressions that can raise (`float + str` is a `TypeError`) are
  modelled with `Except String`.
* The SQLite table holds rows in insertion order with `seq` assigned by
  AUTOINCREMENT; a log is the list of events in insertion order, and
  `ORDER BY seq DESC` is `List.reverse` (sound whenever `seq` is strictly
  increasing along the list, which appends preserve — see `SeqSorted`).
-/

namespace AgentOfSats

/-- A JSON-ish payload value, as stored in the `payload` column and read back
by `json.loads`.  Python treats `bool` as numeric (`True + 0.0 = 1.0`), so it
is kept separate from genuinely non-numeric values. -/
inductive PValue where
  | num  (q : ℚ)
  | bool (b : Bool)
  | str  (s : String)
  | null
  deriving DecidableEq, Repr

/-- Python `float(...) + v`: succeeds exactly when `v` is numeric
(a number or a bool); otherwise the interpreter raises `TypeError`. -/
def PValue.asNumber : PValue → Option ℚ
  | .num q  => some q
  | .bool b => some (if b then 1 else 0)
  | _       => none

/-- Python dict lookup `payload.get(key, default)` on a JSON object. -/
def payloadGet (p : List (String × PValue)) (key : String) (default : PValue) : PValue :=
  match p.find? (fun kv => kv.1 = key) with
  | some kv => kv.2
  | none    => default

/-- One row of the `events` table, as returned by `_row_to_event`
(the derived `iso` string is presentation only and omitted). -/
structure Event where
  seq     : Nat
  ts      : ℚ
  type    : String
  payload : List (String × PValue)
  deriving DecidableEq, Repr

-- Event type constants from the source.
def EVENT_TRADE_OPEN : String := "trade_open"
def EVENT_TRADE_CLOSE : String := "trade_close"
def EVENT_PNL_SNAPSHOT : String := "pnl_snapshot"
def EVENT_STRATEGY_DECISION : String := "strategy_decision"
def EVENT_ERROR : String := "error"

/-- A performance log: the rows of the `events` table in insertion order. -/
abbrev Log := List Event

/-- The `seq` column is strictly increasing in insertion order.  This is the
invariant SQLite's AUTOINCREMENT primary key maintains for an append-only
table; every log reachable by `append_event` from a fresh store satisfies it. -/
def SeqSorted (log : Log) : Prop :=
  log.Pairwise (fun a b => a.seq < b.seq)

instance : DecidablePred SeqSorted := fun log =>
  inferInstanceAs (Decidable (log.Pairwise _))

/-- AUTOINCREMENT sequence assignment: one more than the largest `seq` ever
used (no row is ever deleted), and `1` on a fresh empty table. -/
def nextSeq (log : Log) : Nat :=
  (log.map Event.seq).foldr max 0 + 1

/-- Append one event (`append_event`) and return its assigned sequence
number.  The Python code defaults `ts` to `time.time()` when the caller
omits it; the resolved timestamp is passed here explicitly. -/
def append_event (log : Log) (ts : ℚ) (etype : String)
    (payload : List (String × PValue)) : Log × Nat :=
  let seq := nextSeq log
  (log ++ [{ seq := seq, ts := ts, type := etype, payload := payload }], seq)

/-- Read recent events (`iter_events(limit, event_type)`):
`SELECT … ORDER BY seq DESC`, with a
`WHERE type = ?` clause only when `event_type` is truthy (not `None`, not
`""`), and a `LIMIT ?` clause only when `limit` is truthy (not `None`, not
`0`).  A negative SQLite `LIMIT` means "no limit". -/
def iter_events (log : Log) (limit : Option Int)
    (event_type : Option String) : List Event :=
  let base := log.reverse
  let filtered :=
    match event_type with
    | some t => if t = "" then base else base.filter (fun e => e.type = t)
    | none   => base
  match limit with
  | some n => if n = 0 then filtered
              else if n < 0 then filtered
              else filtered.take n.toNat
  | none   => filtered

/-- Latest snapshot (`get_latest_snapshot`): `SELECT … WHERE type =
'pnl_snapshot' ORDER BY seq DESC LIMIT 1`, or `None` when no row matches. -/
def get_latest_snapshot (log : Log) : Option Event :=
  ((log.reverse).filter (fun e => e.type = EVENT_PNL_SNAPSHOT)).head?

/-- Time-range read (`get_events_since(since_ts)`): all events with
`ts >= since_ts`, oldest first (`ORDER BY seq ASC`). -/
def get_events_since (log : Log) (since_ts : ℚ) : List Event :=
  log.filter (fun e => since_ts ≤ e.ts)

/-- The Python accumulation loop of `compute_pnl_summary`:
`cumulative_pnl += payload.get("realized_pnl", 0.0)` then update `peak`
and `max_drawdown`; raises `TypeError` when the payload value is
non-numeric. -/
def pnlLoop : List Event → ℚ → ℚ → ℚ → Except String (ℚ × ℚ × ℚ)
  | [], cumulative_pnl, peak, max_drawdown =>
      .ok (cumulative_pnl, peak, max_drawdown)
  | ev :: rest, cumulative_pnl, peak, max_drawdown =>
      match (payloadGet ev.payload "realized_pnl" (.num 0)).asNumber with
      | none => .error "TypeError: unsupported operand type for +"
      | some pnl =>
          let c := cumulative_pnl + pnl
          let p := if c > peak then c else peak
          let dd := p - c
          let m := if dd > max_drawdown then dd else max_drawdown
          pnlLoop rest c p m

/-- The Python windowed sum
`sum(e["payload"].get("realized_pnl", 0.0) for e in window_closes)`
(running total starts at `0`; raises `TypeError` on a non-numeric value). -/
def pnlSum : List Event → ℚ → Except String ℚ
  | [], acc => .ok acc
  | ev :: rest, acc =>
      match (payloadGet ev.payload "realized_pnl" (.num 0)).asNumber with
      | none => .error "TypeError: unsupported operand type for +"
      | some pnl => pnlSum rest (acc + pnl)

/-- Python `round` on an integer boundary: banker's rounding
(round half to even). -/
def roundHalfEven (q : ℚ) : ℤ :=
  let f := ⌊q⌋
  let r := q - (f : ℚ)
  if r < 1/2 then f
  else if 1/2 < r then f + 1
  else if f % 2 = 0 then f else f + 1

/-- Python `round(x, 4)`. -/
def round4 (q : ℚ) : ℚ :=
  (roundHalfEven (q * 10000) : ℚ) / 10000

/-- The dictionary returned by `compute_pnl_summary`. -/
structure Summary where
  cumulative_pnl_usd : ℚ
  realized_pnl_window_usd : ℚ
  window_hours : ℚ
  max_drawdown_usd : ℚ
  total_closed_trades : Nat
  deriving DecidableEq, Repr

/-- Derived analytics (`compute_pnl_summary(window_hours)`): replay all
`trade_close` events
oldest-first accumulating cumulative PnL, running peak and max drawdown;
then sum realized PnL over the trailing window `[now - window_hours*3600, ∞)`.
`now` is the value `time.time()` returns during the call. -/
def compute_pnl_summary (log : Log) (now : ℚ) (window_hours : ℚ) :
    Except String Summary :=
  let all_closes := (iter_events log none (some EVENT_TRADE_CLOSE)).reverse
  match pnlLoop all_closes 0 0 0 with
  | .error e => .error e
  | .ok (cumulative_pnl, _, max_drawdown) =>
      let cutoff := now - window_hours * 3600
      let window_closes := all_closes.filter (fun e => cutoff ≤ e.ts)
      match pnlSum window_closes 0 with
      | .error e => .error e
      | .ok realized_window =>
          .ok { cumulative_pnl_usd := round4 cumulative_pnl
                realized_pnl_window_usd := round4 realized_window
                window_hours := window_hours
                max_drawdown_usd := round4 max_drawdown
                total_closed_trades := all_closes.length }

/-! ### Derived specification functions -/

/-- The payload value the analytics read for a close event:
`payload.get("realized_pnl", 0.0)` as seen by Python float addition. -/
def closeContrib (e : Event) : Option ℚ :=
  (payloadGet e.payload "realized_pnl" (.num 0)).asNumber

/-- The numeric contribution of a close event (`0` when the field is
absent, because of the `0.0` default). -/
def contribD (e : Event) : ℚ :=
  (closeContrib e).getD 0

/-- Every event in the list carries a numeric (or absent) `realized_pnl`,
so the Python accumulation runs without a `TypeError`. -/
def AllNumeric (l : List Event) : Prop :=
  ∀ e ∈ l, (closeContrib e).isSome = true

/-- Plain (unrounded) sum of realized-PnL contributions. -/
def realizedSum (l : List Event) : ℚ :=
  (l.map contribD).sum

/-- All `trade_close` events of a log, oldest first. -/
def closesOf (log : Log) : List Event :=
  log.filter (fun e => e.type = EVENT_TRADE_CLOSE)

/-- The events the windowed sum ranges over: `trade_close` events with
`ts ≥ now - window_hours * 3600`. -/
def windowCloses (log : Log) (now window_hours : ℚ) : List Event :=
  (closesOf log).filter (fun e => now - window_hours * 3600 ≤ e.ts)

/-- Pure mirror of the accumulation loop, with the `0` default in place of
a possible `TypeError`. -/
def loopSpec : List Event → ℚ → ℚ → ℚ → ℚ × ℚ × ℚ
  | [], c, p, m => (c, p, m)
  | e :: rest, c, p, m =>
      let c1 := c + contribD e
      let p1 := if c1 > p then c1 else p
      let dd := p1 - c1
      let m1 := if dd > m then dd else m
      loopSpec rest c1 p1 m1

/-- The exact (unrounded) all-time max drawdown the loop accumulates. -/
def exactDrawdown (l : List Event) : ℚ :=
  (loopSpec l 0 0 0).2.2

/-! ### Basic lemmas about the embedding -/

theorem all_closes_eq (log : Log) :
    (iter_events log none (some EVENT_TRADE_CLOSE)).reverse = closesOf log := by
  simp [iter_events, closesOf, EVENT_TRADE_CLOSE, List.filter_reverse]

theorem pnlLoop_eq_loopSpec (l : List Event) (h : AllNumeric l) :
    ∀ c p m, pnlLoop l c p m = .ok (loopSpec l c p m) := by
  induction l with
  | nil => intro c p m; rfl
  | cons e rest ih =>
      intro c p m
      have he : (closeContrib e).isSome = true := h e (List.mem_cons_self e rest)
      obtain ⟨x, hx⟩ := Option.isSome_iff_exists.mp he
      have hrest : AllNumeric rest := fun e' he' => h e' (List.mem_cons_of_mem e he')
      have hx' : (payloadGet e.payload "realized_pnl" (.num 0)).asNumber = some x := hx
      have hcd : contribD e = x := by simp [contribD, hx]
      simp only [pnlLoop, loopSpec, hx', hcd]
      exact ih hrest _ _ _

theorem loopSpec_fst (l : List Event) :
    ∀ c p m, (loopSpec l c p m).1 = c + realizedSum l := by
  induction l with
  | nil => intro c p m; simp [loopSpec, realizedSum]
  | cons e rest ih =>
      intro c p m
      simp only [loopSpec]
      rw [ih]
      simp only [realizedSum, List.map_cons, List.sum_cons]
      ring

theorem pnlSum_eq_sum (l : List Event) (h : AllNumeric l) :
    ∀ a, pnlSum l a = .ok (a + realizedSum l) := by
  induction l with
  | nil => intro a; simp [pnlSum, realizedSum]
  | cons e rest ih =>
      intro a
      have he : (closeContrib e).isSome = true := h e (List.mem_cons_self e rest)
      obtain ⟨x, hx⟩ := Option.isSome_iff_exists.mp he
      have hrest : AllNumeric rest := fun e' he' => h e' (List.mem_cons_of_mem e he')
      have hx' : (payloadGet e.payload "realized_pnl" (.num 0)).asNumber = some x := hx
      have hcd : contribD e = x := by simp [contribD, hx]
      simp only [pnlSum, hx']
      rw [ih hrest]
      simp only [realizedSum, List.map_cons, List.sum_cons, hcd]
      congr 1
      ring

theorem allNumeric_filter {l : List Event} (h : AllNumeric l) (q : Event → Bool) :
    AllNumeric (l.filter q) :=
  fun e he => h e (List.mem_of_mem_filter he)

theorem pnlLoop_ok_allNumeric (l : List Event) :
    ∀ c p m r, pnlLoop l c p m = .ok r → AllNumeric l := by
  induction l with
  | nil =>
      intro _ _ _ _ _ e he
      cases he
  | cons e rest ih =>
      intro c p m r h e' he'
      simp only [pnlLoop] at h
      cases hx : (payloadGet e.payload "realized_pnl" (.num 0)).asNumber with
      | none => rw [hx] at h; cases h
      | some x =>
          rw [hx] at h
          rcases List.mem_cons.mp he' with rfl | hmem
          · simp [closeContrib, hx]
          · exact ih _ _ _ _ h e' hmem

theorem compute_eq_of_allNumeric (log : Log) (now wh : ℚ)
    (h : AllNumeric (closesOf log)) :
    compute_pnl_summary log now wh =
      .ok { cumulative_pnl_usd := round4 (realizedSum (closesOf log))
            realized_pnl_window_usd := round4 (realizedSum (windowCloses log now wh))
            window_hours := wh
            max_drawdown_usd := round4 (exactDrawdown (closesOf log))
            total_closed_trades := (closesOf log).length } := by
  have hw : AllNumeric ((closesOf log).filter (fun e => now - wh * 3600 ≤ e.ts)) :=
    allNumeric_filter h _
  rcases hls : loopSpec (closesOf log) 0 0 0 with ⟨c, p, m⟩
  have hc : c = realizedSum (closesOf log) := by
    have := loopSpec_fst (closesOf log) 0 0 0
    rw [hls] at this
    simpa using this
  have hm : m = exactDrawdown (closesOf log) := by
    simp [exactDrawdown, hls]
  simp only [compute_pnl_summary, all_closes_eq, pnlLoop_eq_loopSpec _ h, hls,
    pnlSum_eq_sum _ hw, windowCloses, hc, hm, zero_add]

theorem compute_ok_allNumeric (log : Log) (now wh : ℚ) (s : Summary)
    (h : compute_pnl_summary log now wh = .ok s) : AllNumeric (closesOf log) := by
  simp only [compute_pnl_summary, all_closes_eq] at h
  cases hl : pnlLoop (closesOf log) 0 0 0 with
  | error e => rw [hl] at h; cases h
  | ok t => exact pnlLoop_ok_allNumeric _ _ _ _ _ hl

theorem pnlLoop_error_of_not_allNumeric (l : List Event) (h : ¬ AllNumeric l) :
    ∀ c p m, pnlLoop l c p m = .error "TypeError: unsupported operand type for +" := by
  induction l with
  | nil =>
      exact absurd (fun e he => absurd he (List.not_mem_nil e)) h
  | cons e rest ih =>
      intro c p m
      cases hx : (payloadGet e.payload "realized_pnl" (.num 0)).asNumber with
      | none => simp only [pnlLoop, hx]
      | some x =>
          have hrest : ¬ AllNumeric rest := by
            intro hr
            exact h (fun e' he' => by
              rcases List.mem_cons.mp he' with rfl | hmem
              · simp [closeContrib, hx]
              · exact hr e' hmem)
          simp only [pnlLoop, hx]
          exact ih hrest _ _ _

theorem compute_error_of_not_allNumeric (log : Log) (now wh : ℚ)
    (h : ¬ AllNumeric (closesOf log)) :
    compute_pnl_summary log now wh =
      .error "TypeError: unsupported operand type for +" := by
  simp only [compute_pnl_summary, all_closes_eq,
    pnlLoop_error_of_not_allNumeric _ h]

/-! ### Rounding lemmas -/

theorem roundHalfEven_abs_sub_le (q : ℚ) : |(roundHalfEven q : ℚ) - q| ≤ 1/2 := by
  unfold roundHalfEven
  simp only []
  have h0 : (⌊q⌋ : ℚ) ≤ q := Int.floor_le q
  have h1 : q < ⌊q⌋ + 1 := Int.lt_floor_add_one q
  split_ifs with ha hb hc
  all_goals rw [abs_le]
  all_goals constructor
  all_goals push_cast
  all_goals linarith

theorem round4_abs_sub_le (q : ℚ) : |round4 q - q| ≤ 1/20000 := by
  unfold round4
  have h := roundHalfEven_abs_sub_le (q * 10000)
  have he : (roundHalfEven (q * 10000) : ℚ) / 10000 - q
      = ((roundHalfEven (q * 10000) : ℚ) - q * 10000) / 10000 := by ring
  rw [he, abs_div, abs_of_pos (show (0:ℚ) < 10000 by norm_num),
    div_le_iff₀ (show (0:ℚ) < 10000 by norm_num)]
  linarith

theorem round4_mul_den (q : ℚ) : (round4 q * 10000).den = 1 := by
  unfold round4
  rw [div_mul_cancel₀ _ (show (10000:ℚ) ≠ 0 by norm_num)]
  exact Rat.den_intCast _

theorem roundHalfEven_intCast (n : ℤ) : roundHalfEven (n : ℚ) = n := by
  unfold roundHalfEven
  norm_num [Int.floor_intCast]

theorem round4_intCast (n : ℤ) : round4 (n : ℚ) = n := by
  unfold round4
  have h : ((n : ℚ) * 10000) = ((n * 10000 : ℤ) : ℚ) := by push_cast; ring
  rw [h, roundHalfEven_intCast]
  push_cast
  field_simp

instance : DecidablePred AllNumeric := fun l =>
  inferInstanceAs (Decidable (∀ e ∈ l, ((closeContrib e).isSome = true)))

/-! ### Structural lemmas about the spec functions -/

theorem closesOf_append (a b : Log) :
    closesOf (a ++ b) = closesOf a ++ closesOf b := by
  simp [closesOf, List.filter_append]

theorem closesOf_cons_close (e : Event) (l : Log)
    (h : e.type = EVENT_TRADE_CLOSE) :
    closesOf (e :: l) = e :: closesOf l := by
  simp [closesOf, List.filter_cons, h]

theorem realizedSum_append (a b : List Event) :
    realizedSum (a ++ b) = realizedSum a + realizedSum b := by
  simp [realizedSum, List.map_append, List.sum_append]

theorem realizedSum_cons (e : Event) (l : List Event) :
    realizedSum (e :: l) = contribD e + realizedSum l := by
  simp [realizedSum]

theorem allNumeric_append_iff (a b : List Event) :
    AllNumeric (a ++ b) ↔ AllNumeric a ∧ AllNumeric b := by
  constructor
  · intro h
    exact ⟨fun e he => h e (List.mem_append_left _ he),
           fun e he => h e (List.mem_append_right _ he)⟩
  · rintro ⟨ha, hb⟩ e he
    rcases List.mem_append.mp he with h | h
    · exact ha e h
    · exact hb e h

theorem allNumeric_cons_iff (e : Event) (l : List Event) :
    AllNumeric (e :: l) ↔ (closeContrib e).isSome = true ∧ AllNumeric l := by
  constructor
  · intro h
    exact ⟨h e (List.mem_cons_self e l), fun e' he' => h e' (List.mem_cons_of_mem e he')⟩
  · rintro ⟨he, hl⟩ e' he'
    rcases List.mem_cons.mp he' with rfl | h
    · exact he
    · exact hl e' h

theorem loopSpec_append (X Y : List Event) :
    ∀ c p m, loopSpec (X ++ Y) c p m =
      loopSpec Y (loopSpec X c p m).1 (loopSpec X c p m).2.1 (loopSpec X c p m).2.2 := by
  induction X with
  | nil => intro c p m; rfl
  | cons e rest ih =>
      intro c p m
      simp only [List.cons_append, loopSpec]
      exact ih _ _ _

/-! ### Lemmas about sequence assignment -/

theorem foldr_max_init (l : List Nat) (b : Nat) :
    l.foldr max b = max (l.foldr max 0) b := by
  induction l with
  | nil => simp
  | cons a l ih =>
      simp only [List.foldr_cons, ih]
      exact (Nat.max_assoc a _ b).symm

theorem nextSeq_append (log : Log) (ts : ℚ) (ty : String)
    (pl : List (String × PValue)) :
    nextSeq (append_event log ts ty pl).1 = nextSeq log + 1 := by
  unfold append_event nextSeq
  simp only [List.map_append, List.foldr_append, List.map_cons, List.map_nil,
    List.foldr_cons, List.foldr_nil]
  rw [foldr_max_init]
  have h1 : max ((List.map Event.seq log).foldr max 0 + 1) 0
      = (List.map Event.seq log).foldr max 0 + 1 := Nat.max_eq_left (Nat.zero_le _)
  rw [h1, Nat.max_eq_right (Nat.le_succ _)]

/-- Repeated `append_event` calls against a store state, returning the
final log and the list of assigned sequence numbers in call order. -/
def appendAll (log : Log) : List (ℚ × String × List (String × PValue)) → Log × List Nat
  | [] => (log, [])
  | (ts, ty, pl) :: rest =>
      let r := append_event log ts ty pl
      let rr := appendAll r.1 rest
      (rr.1, r.2 :: rr.2)

theorem appendAll_seqs (evs : List (ℚ × String × List (String × PValue))) :
    ∀ log : Log, (appendAll log evs).2 = List.range' (nextSeq log) evs.length := by
  induction evs with
  | nil => intro log; rfl
  | cons ev rest ih =>
      intro log
      rcases ev with ⟨ts, ty, pl⟩
      simp only [appendAll]
      rw [ih, nextSeq_append]
      simp [List.range', append_event]

theorem appendAll_map_seq (evs : List (ℚ × String × List (String × PValue))) :
    ∀ log : Log, (appendAll log evs).1.map Event.seq
      = log.map Event.seq ++ List.range' (nextSeq log) evs.length := by
  induction evs with
  | nil => intro log; simp [appendAll]
  | cons ev rest ih =>
      intro log
      rcases ev with ⟨ts, ty, pl⟩
      simp only [appendAll]
      rw [ih, nextSeq_append]
      simp [append_event, List.range']

theorem appendAll_extends (evs : List (ℚ × String × List (String × PValue))) :
    ∀ log : Log, ∃ tail, (appendAll log evs).1 = log ++ tail := by
  induction evs with
  | nil => intro log; exact ⟨[], by simp [appendAll]⟩
  | cons ev rest ih =>
      intro log
      rcases ev with ⟨ts, ty, pl⟩
      obtain ⟨t, ht⟩ := ih (append_event log ts ty pl).1
      refine ⟨{ seq := nextSeq log, ts := ts, type := ty, payload := pl } :: t, ?_⟩
      simp only [appendAll]
      refine ht.trans ?_
      show log ++ [{ seq := nextSeq log, ts := ts, type := ty, payload := pl }] ++ t
        = log ++ { seq := nextSeq log, ts := ts, type := ty, payload := pl } :: t
      rw [List.append_assoc]
      rfl

/-! ### Lemmas about query shapes -/

theorem iter_events_pos_limit (log : Log) (k : Nat) (hk : 0 < k) :
    iter_events log (some (k : Int)) none = log.reverse.take k := by
  have h0 : ¬ ((k : Int) = 0) := by exact_mod_cast hk.ne'
  have hneg : ¬ ((k : Int) < 0) := not_lt.mpr (Int.natCast_nonneg k)
  simp [iter_events, h0, hneg, Int.toNat_natCast]

theorem iter_events_pos_limit_type (log : Log) (k : Nat) (hk : 0 < k)
    (t : String) (ht : t ≠ "") :
    iter_events log (some (k : Int)) (some t)
      = (log.reverse.filter (fun e => e.type = t)).take k := by
  have h0 : ¬ ((k : Int) = 0) := by exact_mod_cast hk.ne'
  have hneg : ¬ ((k : Int) < 0) := not_lt.mpr (Int.natCast_nonneg k)
  simp [iter_events, h0, hneg, Int.toNat_natCast, ht]

theorem iter_events_no_limit_type (log : Log) (t : String) (ht : t ≠ "") :
    iter_events log none (some t) = log.reverse.filter (fun e => e.type = t) := by
  simp [iter_events, ht]

/-! ### Claim theorems -/

/-- C6: on an empty log `compute_pnl_summary` returns cumulative PnL `0`,
windowed realized PnL `0`, max drawdown `0` and zero closed trades, for
every `window_hours` argument (and every clock value). -/
theorem C6_empty_log_summary (now window_hours : ℚ) :
    compute_pnl_summary [] now window_hours =
      .ok { cumulative_pnl_usd := 0
            realized_pnl_window_usd := 0
            window_hours := window_hours
            max_drawdown_usd := 0
            total_closed_trades := 0 } := by
  have h : AllNumeric (closesOf []) := by
    intro e he
    simp [closesOf] at he
  rw [compute_eq_of_allNumeric _ _ _ h]
  norm_num [closesOf, windowCloses, realizedSum, exactDrawdown, loopSpec,
    round4, roundHalfEven]

/-- C9: Python treats `limit=0` as falsy, so no SQL `LIMIT` clause is
emitted and `iter_events` returns all events of the log (newest first) —
in particular a non-empty list on a non-empty log. -/
theorem C9_zero_limit_returns_all (log : Log) (hne : log ≠ []) :
    (∀ event_type, iter_events log (some 0) event_type
        = iter_events log none event_type)
    ∧ iter_events log (some 0) none = log.reverse
    ∧ iter_events log (some 0) none ≠ [] := by
  refine ⟨fun event_type => ?_, ?_, ?_⟩
  · simp [iter_events]
  · simp [iter_events]
  · simp only [iter_events, if_true]
    simpa using hne

/-- C9 witness: a concrete one-event log, `limit=0` returns it. -/
theorem C9_zero_limit_returns_all_witness :
    ([{ seq := 1, ts := 5, type := "trade_open", payload := [] }] : Log) ≠ []
    ∧ iter_events [{ seq := 1, ts := 5, type := "trade_open", payload := [] }]
        (some 0) none ≠ [] := by
  refine ⟨by decide, ?_⟩
  exact (C9_zero_limit_returns_all _ (by decide)).2.2

/-- C4 counterexample: the summary is NOT a pure function of log contents
and `window_hours` alone — the same log and window queried at two clock
values (`time.time()` readings) `100` and `10000` give different
`realized_pnl_window_usd` (`5` vs `0`), because the window cutoff is
computed from the wall clock. -/
theorem C4_counterexample :
    compute_pnl_summary
        [{ seq := 1, ts := 100, type := "trade_close",
           payload := [("realized_pnl", PValue.num 5)] }] 100 1
      = .ok { cumulative_pnl_usd := 5, realized_pnl_window_usd := 5,
              window_hours := 1, max_drawdown_usd := 0, total_closed_trades := 1 }
    ∧ compute_pnl_summary
        [{ seq := 1, ts := 100, type := "trade_close",
           payload := [("realized_pnl", PValue.num 5)] }] 10000 1
      = .ok { cumulative_pnl_usd := 5, realized_pnl_window_usd := 0,
              window_hours := 1, max_drawdown_usd := 0, total_closed_trades := 1 }
    ∧ compute_pnl_summary
        [{ seq := 1, ts := 100, type := "trade_close",
           payload := [("realized_pnl", PValue.num 5)] }] 100 1
      ≠ compute_pnl_summary
        [{ seq := 1, ts := 100, type := "trade_close",
           payload := [("realized_pnl", PValue.num 5)] }] 10000 1 := by
  refine ⟨?_, ?_, ?_⟩
  · norm_num [compute_pnl_summary, iter_events, pnlLoop, pnlSum, payloadGet,
      PValue.asNumber, round4, roundHalfEven, EVENT_TRADE_CLOSE, List.filter,
      List.find?]
  · norm_num [compute_pnl_summary, iter_events, pnlLoop, pnlSum, payloadGet,
      PValue.asNumber, round4, roundHalfEven, EVENT_TRADE_CLOSE, List.filter,
      List.find?]
  · norm_num [compute_pnl_summary, iter_events, pnlLoop, pnlSum, payloadGet,
      PValue.asNumber, round4, roundHalfEven, EVENT_TRADE_CLOSE, List.filter,
      List.find?, Summary.mk.injEq]

/-- C4 (amended): the summary is a pure deterministic function of the log
contents, the `window_hours` argument and the wall-clock value read during
the call; the clock can only affect `realized_pnl_window_usd` — cumulative
PnL, max drawdown, trade count and the echoed window are functions of the
log contents (and `window_hours`) alone. -/
theorem C4_amended_deterministic (log : Log) (now now2 wh : ℚ) :
    compute_pnl_summary log now wh = compute_pnl_summary log now wh
    ∧ (compute_pnl_summary log now wh).map Summary.cumulative_pnl_usd
        = (compute_pnl_summary log now2 wh).map Summary.cumulative_pnl_usd
    ∧ (compute_pnl_summary log now wh).map Summary.max_drawdown_usd
        = (compute_pnl_summary log now2 wh).map Summary.max_drawdown_usd
    ∧ (compute_pnl_summary log now wh).map Summary.total_closed_trades
        = (compute_pnl_summary log now2 wh).map Summary.total_closed_trades
    ∧ (compute_pnl_summary log now wh).map Summary.window_hours
        = (compute_pnl_summary log now2 wh).map Summary.window_hours := by
  by_cases h : AllNumeric (closesOf log)
  · rw [compute_eq_of_allNumeric _ now wh h, compute_eq_of_allNumeric _ now2 wh h]
    simp [Except.map]
  · rw [compute_error_of_not_allNumeric _ now wh h,
      compute_error_of_not_allNumeric _ now2 wh h]
    simp

/-- Inserting a close event whose payload reads as contribution `0` gives
the same summary as inserting one with an explicit `realized_pnl = 0`. -/
theorem compute_insert_zero_contrib (l1 l2 : Log) (e1 e2 : Event)
    (hty1 : e1.type = EVENT_TRADE_CLOSE) (hty2 : e2.type = EVENT_TRADE_CLOSE)
    (hts : e1.ts = e2.ts)
    (h1 : closeContrib e1 = some 0) (h2 : closeContrib e2 = some 0)
    (hnum : AllNumeric (closesOf l1 ++ closesOf l2)) (now wh : ℚ) :
    compute_pnl_summary (l1 ++ e1 :: l2) now wh
      = compute_pnl_summary (l1 ++ e2 :: l2) now wh
    ∧ (compute_pnl_summary (l1 ++ e1 :: l2) now wh).map Summary.total_closed_trades
      = .ok ((closesOf l1).length + 1 + (closesOf l2).length) := by
  have hd1 : contribD e1 = 0 := by simp [contribD, h1]
  have hd2 : contribD e2 = 0 := by simp [contribD, h2]
  obtain ⟨hnA, hnB⟩ := (allNumeric_append_iff _ _).mp hnum
  have hcl1 : closesOf (l1 ++ e1 :: l2) = closesOf l1 ++ e1 :: closesOf l2 := by
    rw [closesOf_append, closesOf_cons_close _ _ hty1]
  have hcl2 : closesOf (l1 ++ e2 :: l2) = closesOf l1 ++ e2 :: closesOf l2 := by
    rw [closesOf_append, closesOf_cons_close _ _ hty2]
  have hn1 : AllNumeric (closesOf (l1 ++ e1 :: l2)) := by
    rw [hcl1, allNumeric_append_iff, allNumeric_cons_iff]
    exact ⟨hnA, by simp [h1], hnB⟩
  have hn2 : AllNumeric (closesOf (l1 ++ e2 :: l2)) := by
    rw [hcl2, allNumeric_append_iff, allNumeric_cons_iff]
    exact ⟨hnA, by simp [h2], hnB⟩
  constructor
  · rw [compute_eq_of_allNumeric _ _ _ hn1, compute_eq_of_allNumeric _ _ _ hn2]
    have hsum : realizedSum (closesOf (l1 ++ e1 :: l2))
        = realizedSum (closesOf (l1 ++ e2 :: l2)) := by
      rw [hcl1, hcl2, realizedSum_append, realizedSum_append,
        realizedSum_cons, realizedSum_cons, hd1, hd2]
    have hwin : realizedSum (windowCloses (l1 ++ e1 :: l2) now wh)
        = realizedSum (windowCloses (l1 ++ e2 :: l2) now wh) := by
      simp only [windowCloses, hcl1, hcl2, List.filter_append, List.filter_cons]
      by_cases hc : now - wh * 3600 ≤ e2.ts
      · rw [if_pos (by simpa [hts] using hc), if_pos (by simpa using hc)]
        rw [realizedSum_append, realizedSum_append,
          realizedSum_cons, realizedSum_cons, hd1, hd2]
      · rw [if_neg (by simpa [hts] using hc), if_neg (by simpa using hc)]
    have hdd : exactDrawdown (closesOf (l1 ++ e1 :: l2))
        = exactDrawdown (closesOf (l1 ++ e2 :: l2)) := by
      simp only [exactDrawdown, hcl1, hcl2, loopSpec_append, loopSpec, hd1, hd2]
    have hlen : (closesOf (l1 ++ e1 :: l2)).length
        = (closesOf (l1 ++ e2 :: l2)).length := by
      rw [hcl1, hcl2]
      simp
    rw [hsum, hwin, hdd, hlen]
  · rw [compute_eq_of_allNumeric _ _ _ hn1]
    simp only [Except.map, hcl1, List.length_append, List.length_cons]
    congr 1
    omega

/-- C2 counterexample: a `trade_close` whose `realized_pnl` is the string
`"oops"` is NOT treated as a `0.0` contribution — `cumulative_pnl += pnl`
raises a `TypeError` and `compute_pnl_summary` fails instead of returning
a summary. -/
theorem C2_counterexample :
    compute_pnl_summary
        [{ seq := 1, ts := 100, type := "trade_close",
           payload := [("realized_pnl", PValue.str "oops")] }] 100 24
      = .error "TypeError: unsupported operand type for +" := by
  norm_num [compute_pnl_summary, iter_events, pnlLoop, pnlSum, payloadGet,
    PValue.asNumber, EVENT_TRADE_CLOSE, List.filter, List.find?]

/-- C2 (amended): a `trade_close` event whose payload lacks `realized_pnl`
contributes `0.0` to the cumulative and windowed sums (it is
interchangeable with an explicit `realized_pnl = 0`), and it is still
counted in `total_closed_trades`; but a `trade_close` carrying a
non-numeric `realized_pnl` value makes `compute_pnl_summary` raise a
`TypeError` instead of contributing `0.0`. -/
theorem C2_missing_field_contributes_zero (l1 l2 : Log) (s : Nat)
    (ts now wh : ℚ) (pl : List (String × PValue))
    (hmiss : pl.find? (fun kv => kv.1 = "realized_pnl") = none)
    (hnum : AllNumeric (closesOf l1 ++ closesOf l2)) :
    compute_pnl_summary
        (l1 ++ { seq := s, ts := ts, type := EVENT_TRADE_CLOSE, payload := pl } :: l2)
        now wh
      = compute_pnl_summary
          (l1 ++ { seq := s, ts := ts, type := EVENT_TRADE_CLOSE,
                   payload := [("realized_pnl", PValue.num 0)] } :: l2) now wh
    ∧ (compute_pnl_summary
        (l1 ++ { seq := s, ts := ts, type := EVENT_TRADE_CLOSE, payload := pl } :: l2)
        now wh).map Summary.total_closed_trades
      = .ok ((closesOf l1).length + 1 + (closesOf l2).length)
    ∧ ∀ (log : Log) (now2 wh2 : ℚ),
        (∃ e ∈ closesOf log, (closeContrib e).isSome = false) →
          compute_pnl_summary log now2 wh2
            = .error "TypeError: unsupported operand type for +" := by
  have h1 : closeContrib
      { seq := s, ts := ts, type := EVENT_TRADE_CLOSE, payload := pl } = some 0 := by
    simp [closeContrib, payloadGet, hmiss, PValue.asNumber]
  have h2 : closeContrib
      { seq := s, ts := ts, type := EVENT_TRADE_CLOSE,
        payload := [("realized_pnl", PValue.num 0)] } = some 0 := by
    simp [closeContrib, payloadGet, PValue.asNumber, List.find?]
  obtain ⟨heq, htot⟩ := compute_insert_zero_contrib l1 l2
    { seq := s, ts := ts, type := EVENT_TRADE_CLOSE, payload := pl }
    { seq := s, ts := ts, type := EVENT_TRADE_CLOSE,
      payload := [("realized_pnl", PValue.num 0)] }
    rfl rfl rfl h1 h2 hnum now wh
  refine ⟨heq, htot, ?_⟩
  rintro log now2 wh2 ⟨e, he, hbad⟩
  refine compute_error_of_not_allNumeric _ _ _ ?_
  intro hall
  rw [hall e he] at hbad
  cases hbad

/-- C3: the max-drawdown field depends only on the full `trade_close`
history of the log (replayed oldest-first) and is identical for every
`window_hours` (and clock) argument, while the windowed realized PnL is
the rounded sum over exactly the `trade_close` events whose timestamp
falls inside the trailing window. -/
theorem C3_drawdown_all_time (log log2 : Log) (now now2 wh wh2 : ℚ)
    (hsame : closesOf log = closesOf log2) :
    (compute_pnl_summary log now wh).map Summary.max_drawdown_usd
      = (compute_pnl_summary log2 now2 wh2).map Summary.max_drawdown_usd
    ∧ ∀ s, compute_pnl_summary log now wh = .ok s →
        s.realized_pnl_window_usd
          = round4 (realizedSum ((closesOf log).filter
              (fun e => now - wh * 3600 ≤ e.ts))) := by
  constructor
  · by_cases h : AllNumeric (closesOf log)
    · rw [compute_eq_of_allNumeric _ _ _ h,
        compute_eq_of_allNumeric _ _ _ (hsame ▸ h)]
      simp [Except.map, exactDrawdown, hsame]
    · rw [compute_error_of_not_allNumeric _ _ _ h,
        compute_error_of_not_allNumeric _ _ _ (hsame ▸ h)]
  · intro s hs
    have h := compute_ok_allNumeric _ _ _ _ hs
    rw [compute_eq_of_allNumeric _ _ _ h] at hs
    injection hs with hs2
    subst hs2
    simp [windowCloses]

/-- C3 witness: a log with one close and one open event against a log with
just the close; drawdown agrees across different windows and clocks. -/
theorem C3_drawdown_all_time_witness :
    (compute_pnl_summary
        [{ seq := 1, ts := 10, type := "trade_close",
           payload := [("realized_pnl", PValue.num 7)] },
         { seq := 2, ts := 20, type := "trade_open", payload := [] }]
        50 1).map Summary.max_drawdown_usd
      = (compute_pnl_summary
          [{ seq := 1, ts := 10, type := "trade_close",
             payload := [("realized_pnl", PValue.num 7)] }]
          999 24).map Summary.max_drawdown_usd
    ∧ ∀ s, compute_pnl_summary
        [{ seq := 1, ts := 10, type := "trade_close",
           payload := [("realized_pnl", PValue.num 7)] },
         { seq := 2, ts := 20, type := "trade_open", payload := [] }]
        50 1 = .ok s →
        s.realized_pnl_window_usd
          = round4 (realizedSum ((closesOf
              [{ seq := 1, ts := 10, type := "trade_close",
                 payload := [("realized_pnl", PValue.num 7)] },
               { seq := 2, ts := 20, type := "trade_open", payload := [] }]).filter
              (fun e => 50 - 1 * 3600 ≤ e.ts))) :=
  C3_drawdown_all_time _ _ 50 999 1 24 (by decide)

/-- C10: each monetary field of a successfully computed summary is the
exact accumulated value rounded to 4 decimal places: it equals `round4`
of the exact value, lies within `1/20000` of it, and its product with
`10000` is an integer. -/
theorem C10_fields_rounded_to_4dp (log : Log) (now wh : ℚ) (s : Summary)
    (h : compute_pnl_summary log now wh = .ok s) :
    (s.cumulative_pnl_usd = round4 (realizedSum (closesOf log))
      ∧ |s.cumulative_pnl_usd - realizedSum (closesOf log)| ≤ 1 / 20000
      ∧ (s.cumulative_pnl_usd * 10000).den = 1)
    ∧ (s.realized_pnl_window_usd = round4 (realizedSum (windowCloses log now wh))
      ∧ |s.realized_pnl_window_usd - realizedSum (windowCloses log now wh)| ≤ 1 / 20000
      ∧ (s.realized_pnl_window_usd * 10000).den = 1)
    ∧ (s.max_drawdown_usd = round4 (exactDrawdown (closesOf log))
      ∧ |s.max_drawdown_usd - exactDrawdown (closesOf log)| ≤ 1 / 20000
      ∧ (s.max_drawdown_usd * 10000).den = 1) := by
  have hn := compute_ok_allNumeric _ _ _ _ h
  rw [compute_eq_of_allNumeric _ _ _ hn] at h
  injection h with h2
  subst h2
  exact ⟨⟨rfl, round4_abs_sub_le _, round4_mul_den _⟩,
    ⟨rfl, round4_abs_sub_le _, round4_mul_den _⟩,
    ⟨rfl, round4_abs_sub_le _, round4_mul_den _⟩⟩

/-- C10 witness: a concrete one-close log evaluated at clock `100`,
window 1 hour. -/
theorem C10_fields_rounded_to_4dp_witness :
    compute_pnl_summary
        [{ seq := 1, ts := 50, type := "trade_close",
           payload := [("realized_pnl", PValue.num 3)] }] 100 1
      = .ok { cumulative_pnl_usd := 3, realized_pnl_window_usd := 3,
              window_hours := 1, max_drawdown_usd := 0, total_closed_trades := 1 }
    ∧ ((Summary.cumulative_pnl_usd
          { cumulative_pnl_usd := 3, realized_pnl_window_usd := 3,
            window_hours := 1, max_drawdown_usd := 0, total_closed_trades := 1 }
        = round4 (realizedSum (closesOf
            [{ seq := 1, ts := 50, type := "trade_close",
               payload := [("realized_pnl", PValue.num 3)] }]))
      ∧ |Summary.cumulative_pnl_usd
            { cumulative_pnl_usd := 3, realized_pnl_window_usd := 3,
              window_hours := 1, max_drawdown_usd := 0, total_closed_trades := 1 }
          - realizedSum (closesOf
            [{ seq := 1, ts := 50, type := "trade_close",
               payload := [("realized_pnl", PValue.num 3)] }])| ≤ 1 / 20000
      ∧ (Summary.cumulative_pnl_usd
            { cumulative_pnl_usd := 3, realized_pnl_window_usd := 3,
              window_hours := 1, max_drawdown_usd := 0, total_closed_trades := 1 }
          * 10000).den = 1)
      ∧ (Summary.realized_pnl_window_usd
            { cumulative_pnl_usd := 3, realized_pnl_window_usd := 3,
              window_hours := 1, max_drawdown_usd := 0, total_closed_trades := 1 }
          = round4 (realizedSum (windowCloses
              [{ seq := 1, ts := 50, type := "trade_close",
                 payload := [("realized_pnl", PValue.num 3)] }] 100 1))
      ∧ |Summary.realized_pnl_window_usd
            { cumulative_pnl_usd := 3, realized_pnl_window_usd := 3,
              window_hours := 1, max_drawdown_usd := 0, total_closed_trades := 1 }
          - realizedSum (windowCloses
              [{ seq := 1, ts := 50, type := "trade_close",
                 payload := [("realized_pnl", PValue.num 3)] }] 100 1)| ≤ 1 / 20000
      ∧ (Summary.realized_pnl_window_usd
            { cumulative_pnl_usd := 3, realized_pnl_window_usd := 3,
              window_hours := 1, max_drawdown_usd := 0, total_closed_trades := 1 }
          * 10000).den = 1)
      ∧ (Summary.max_drawdown_usd
            { cumulative_pnl_usd := 3, realized_pnl_window_usd := 3,
              window_hours := 1, max_drawdown_usd := 0, total_closed_trades := 1 }
          = round4 (exactDrawdown (closesOf
              [{ seq := 1, ts := 50, type := "trade_close",
                 payload := [("realized_pnl", PValue.num 3)] }]))
      ∧ |Summary.max_drawdown_usd
            { cumulative_pnl_usd := 3, realized_pnl_window_usd := 3,
              window_hours := 1, max_drawdown_usd := 0, total_closed_trades := 1 }
          - exactDrawdown (closesOf
              [{ seq := 1, ts := 50, type := "trade_close",
                 payload := [("realized_pnl", PValue.num 3)] }])| ≤ 1 / 20000
      ∧ (Summary.max_drawdown_usd
            { cumulative_pnl_usd := 3, realized_pnl_window_usd := 3,
              window_hours := 1, max_drawdown_usd := 0, total_closed_trades := 1 }
          * 10000).den = 1)) := by
  have h : compute_pnl_summary
      [{ seq := 1, ts := 50, type := "trade_close",
         payload := [("realized_pnl", PValue.num 3)] }] 100 1
    = .ok { cumulative_pnl_usd := 3, realized_pnl_window_usd := 3,
            window_hours := 1, max_drawdown_usd := 0, total_closed_trades := 1 } := by
    norm_num [compute_pnl_summary, iter_events, pnlLoop, pnlSum, payloadGet,
      PValue.asNumber, round4, roundHalfEven, EVENT_TRADE_CLOSE, List.filter,
      List.find?]
  exact ⟨h, C10_fields_rounded_to_4dp _ _ _ _ h⟩

/-- C1: with exactly three `trade_close` events carrying `realized_pnl`
`+100, -150, +50` at increasing timestamps `t0 < t1 < t2`, and a window
cutoff strictly after `t0` and at or before `t1`, `compute_pnl_summary`
returns windowed PnL `-100`, cumulative PnL `0`, max drawdown `150` and
`3` closed trades. -/
theorem C1_window_correctness (log : Log) (s0 s1 s2 : Nat)
    (t0 t1 t2 now wh : ℚ)
    (hcloses : closesOf log =
      [{ seq := s0, ts := t0, type := EVENT_TRADE_CLOSE,
         payload := [("realized_pnl", PValue.num 100)] },
       { seq := s1, ts := t1, type := EVENT_TRADE_CLOSE,
         payload := [("realized_pnl", PValue.num (-150))] },
       { seq := s2, ts := t2, type := EVENT_TRADE_CLOSE,
         payload := [("realized_pnl", PValue.num 50)] }])
    (h01 : t0 < t1) (h12 : t1 < t2)
    (hcut0 : t0 < now - wh * 3600) (hcut1 : now - wh * 3600 ≤ t1) :
    compute_pnl_summary log now wh =
      .ok { cumulative_pnl_usd := 0
            realized_pnl_window_usd := -100
            window_hours := wh
            max_drawdown_usd := 150
            total_closed_trades := 3 } := by
  have hnum : AllNumeric (closesOf log) := by
    rw [hcloses]
    intro e he
    fin_cases he <;> rfl
  rw [compute_eq_of_allNumeric _ _ _ hnum]
  simp only [windowCloses, hcloses]
  have hnot0 : ¬ (now - wh * 3600 ≤ t0) := not_le.mpr hcut0
  have hc2 : now - wh * 3600 ≤ t2 := hcut1.trans h12.le
  norm_num [realizedSum, exactDrawdown, loopSpec, contribD, closeContrib,
    payloadGet, PValue.asNumber, List.filter, List.find?, hnot0, hcut1, hc2,
    round4, roundHalfEven]

/-- C1 witness: the three closes at timestamps 0, 10, 20 with the cutoff
at 5 (clock 3605, one-hour window). -/
theorem C1_window_correctness_witness :
    compute_pnl_summary
        [{ seq := 1, ts := 0, type := EVENT_TRADE_CLOSE,
           payload := [("realized_pnl", PValue.num 100)] },
         { seq := 2, ts := 10, type := EVENT_TRADE_CLOSE,
           payload := [("realized_pnl", PValue.num (-150))] },
         { seq := 3, ts := 20, type := EVENT_TRADE_CLOSE,
           payload := [("realized_pnl", PValue.num 50)] }] 3605 1 =
      .ok { cumulative_pnl_usd := 0
            realized_pnl_window_usd := -100
            window_hours := 1
            max_drawdown_usd := 150
            total_closed_trades := 3 } :=
  C1_window_correctness _ 1 2 3 0 10 20 3605 1 (by decide) (by norm_num)
    (by norm_num) (by norm_num) (by norm_num)

/-- C2 witness: appending a bare-payload close to the empty store behaves
exactly like a close with `realized_pnl = 0`. -/
theorem C2_missing_field_contributes_zero_witness :
    compute_pnl_summary
        ([] ++ { seq := 1, ts := 0, type := EVENT_TRADE_CLOSE, payload := [] } :: [])
        0 24
      = compute_pnl_summary
          ([] ++ { seq := 1, ts := 0, type := EVENT_TRADE_CLOSE,
                   payload := [("realized_pnl", PValue.num 0)] } :: []) 0 24
    ∧ (compute_pnl_summary
        ([] ++ { seq := 1, ts := 0, type := EVENT_TRADE_CLOSE, payload := [] } :: [])
        0 24).map Summary.total_closed_trades
      = .ok ((closesOf []).length + 1 + (closesOf []).length) := by
  obtain ⟨h1, h2, h3⟩ :=
    C2_missing_field_contributes_zero [] [] 1 0 0 24 [] rfl (by decide)
  exact ⟨h1, h2⟩

/-- C5: N appends against a freshly opened empty store are assigned the
sequence numbers `1..N` in call order — strictly increasing, no gaps, no
duplicates — those numbers are exactly the `seq` column of the resulting
log, and later appends only ever extend an existing log, never rewrite
it. -/
theorem C5_fresh_store_sequences
    (evs : List (ℚ × String × List (String × PValue))) :
    (appendAll ([] : Log) evs).2 = List.range' 1 evs.length
    ∧ (appendAll ([] : Log) evs).2.Pairwise (fun a b => a < b)
    ∧ (appendAll ([] : Log) evs).2.Nodup
    ∧ (appendAll ([] : Log) evs).1.map Event.seq = List.range' 1 evs.length
    ∧ ∀ evs2, ∃ tail,
        (appendAll (appendAll ([] : Log) evs).1 evs2).1
          = (appendAll ([] : Log) evs).1 ++ tail := by
  have hseqs : (appendAll ([] : Log) evs).2 = List.range' 1 evs.length := by
    rw [appendAll_seqs]
    rfl
  have hmap : (appendAll ([] : Log) evs).1.map Event.seq
      = List.range' 1 evs.length := by
    rw [appendAll_map_seq]
    rfl
  refine ⟨hseqs, ?_, ?_, hmap, fun evs2 => appendAll_extends evs2 _⟩
  · rw [hseqs]
    exact List.pairwise_lt_range' 1 evs.length
  · rw [hseqs]
    exact List.nodup_range' 1 evs.length

/-- C7: with a positive `limit = k` on a log of at least `k` events,
`iter_events` returns exactly the `k` events with the `k` largest
sequence numbers, in strictly descending `seq` order; with a type filter
it returns only events of that type, still newest first, and is the
`k`-prefix of the unlimited filtered listing. -/
theorem C7_limit_returns_k_largest (log : Log) (hs : SeqSorted log)
    (k : Nat) (hk : 0 < k) (hlen : k ≤ log.length)
    (t : String) (ht : t ≠ "") :
    (iter_events log (some (k : Int)) none).length = k
    ∧ (iter_events log (some (k : Int)) none).Pairwise (fun a b => b.seq < a.seq)
    ∧ (∀ e ∈ iter_events log (some (k : Int)) none, e ∈ log)
    ∧ (∀ e ∈ log, e ∉ iter_events log (some (k : Int)) none →
        ∀ e2 ∈ iter_events log (some (k : Int)) none, e.seq < e2.seq)
    ∧ (∀ e ∈ iter_events log (some (k : Int)) (some t), e ∈ log ∧ e.type = t)
    ∧ (iter_events log (some (k : Int)) (some t)).Pairwise
        (fun a b => b.seq < a.seq)
    ∧ iter_events log (some (k : Int)) (some t)
        = (iter_events log none (some t)).take k := by
  have hdesc : log.reverse.Pairwise (fun a b => b.seq < a.seq) :=
    List.pairwise_reverse.mpr hs
  rw [iter_events_pos_limit log k hk, iter_events_pos_limit_type log k hk t ht,
    iter_events_no_limit_type log t ht]
  refine ⟨?_, ?_, ?_, ?_, ?_, ?_, rfl⟩
  · rw [List.length_take, List.length_reverse]
    exact Nat.min_eq_left hlen
  · exact List.Pairwise.sublist (List.take_sublist k log.reverse) hdesc
  · intro e he
    exact List.mem_reverse.mp (List.mem_of_mem_take he)
  · intro e he hnot e2 he2
    have hsplit : log.reverse = log.reverse.take k ++ log.reverse.drop k :=
      (List.take_append_drop k log.reverse).symm
    have hmem : e ∈ log.reverse.take k ++ log.reverse.drop k := by
      rw [← hsplit]
      exact List.mem_reverse.mpr he
    have hedrop : e ∈ log.reverse.drop k := by
      rcases List.mem_append.mp hmem with h | h
      · exact absurd h hnot
      · exact h
    have hpair : (log.reverse.take k ++ log.reverse.drop k).Pairwise
        (fun a b => b.seq < a.seq) := by
      rw [← hsplit]
      exact hdesc
    exact (List.pairwise_append.mp hpair).2.2 e2 he2 e hedrop
  · intro e he
    have h1 := List.mem_of_mem_take he
    exact ⟨List.mem_reverse.mp (List.mem_of_mem_filter h1),
      by simpa using List.of_mem_filter h1⟩
  · exact List.Pairwise.sublist (List.take_sublist k _) (hdesc.filter _)

/-- C7 witness: three events, `limit = 2`, filtering on `trade_open`. -/
theorem C7_limit_returns_k_largest_witness :
    (iter_events
        [{ seq := 1, ts := 0, type := "trade_open", payload := [] },
         { seq := 2, ts := 1, type := "trade_close", payload := [] },
         { seq := 3, ts := 2, type := "trade_open", payload := [] }]
        (some ((2 : Nat) : Int)) none).length = 2
    ∧ iter_events
        [{ seq := 1, ts := 0, type := "trade_open", payload := [] },
         { seq := 2, ts := 1, type := "trade_close", payload := [] },
         { seq := 3, ts := 2, type := "trade_open", payload := [] }]
        (some ((2 : Nat) : Int)) (some "trade_open")
      = (iter_events
          [{ seq := 1, ts := 0, type := "trade_open", payload := [] },
           { seq := 2, ts := 1, type := "trade_close", payload := [] },
           { seq := 3, ts := 2, type := "trade_open", payload := [] }]
          none (some "trade_open")).take 2 := by
  obtain ⟨h1, h2, h3, h4, h5, h6, h7⟩ :=
    C7_limit_returns_k_largest
      [{ seq := 1, ts := 0, type := "trade_open", payload := [] },
       { seq := 2, ts := 1, type := "trade_close", payload := [] },
       { seq := 3, ts := 2, type := "trade_open", payload := [] }]
      (by decide) 2 (by decide) (by decide) "trade_open" (by decide)
  exact ⟨h1, h7⟩

/-- C8: `get_latest_snapshot` returns none exactly when the log holds no
`pnl_snapshot` event, and otherwise returns a `pnl_snapshot` event of the
log whose sequence number is maximal among all `pnl_snapshot` events —
events of other types never affect the result. -/
theorem C8_latest_snapshot_max_seq (log : Log) (hs : SeqSorted log) :
    (get_latest_snapshot log = none ↔
      ∀ e ∈ log, e.type ≠ EVENT_PNL_SNAPSHOT)
    ∧ ∀ e, get_latest_snapshot log = some e →
        e ∈ log ∧ e.type = EVENT_PNL_SNAPSHOT
          ∧ ∀ e2 ∈ log, e2.type = EVENT_PNL_SNAPSHOT → e2.seq ≤ e.seq := by
  constructor
  · simp [get_latest_snapshot, List.head?_eq_none_iff, List.filter_eq_nil_iff]
  · intro e he
    obtain ⟨tl, htl⟩ := List.head?_eq_some_iff.mp he
    have hmem : e ∈ log.reverse.filter (fun x => x.type = EVENT_PNL_SNAPSHOT) := by
      rw [htl]
      exact List.mem_cons_self e tl
    refine ⟨List.mem_reverse.mp (List.mem_of_mem_filter hmem),
      by simpa using List.of_mem_filter hmem, ?_⟩
    intro e2 he2 hty2
    have hdesc : (log.reverse.filter
        (fun x => x.type = EVENT_PNL_SNAPSHOT)).Pairwise
        (fun a b => b.seq < a.seq) :=
      (List.pairwise_reverse.mpr hs).filter _
    have hmem2 : e2 ∈ log.reverse.filter (fun x => x.type = EVENT_PNL_SNAPSHOT) := by
      rw [List.mem_filter]
      exact ⟨List.mem_reverse.mpr he2, by simpa using hty2⟩
    rw [htl] at hmem2 hdesc
    rcases List.mem_cons.mp hmem2 with rfl | hmem2
    · exact le_refl _
    · exact le_of_lt ((List.pairwise_cons.mp hdesc).1 e2 hmem2)

/-- C8 witness: two snapshots among other events; the seq-3 snapshot wins. -/
theorem C8_latest_snapshot_max_seq_witness :
    (get_latest_snapshot
        [{ seq := 1, ts := 0, type := "pnl_snapshot", payload := [] },
         { seq := 2, ts := 1, type := "trade_open", payload := [] },
         { seq := 3, ts := 2, type := "pnl_snapshot", payload := [] },
         { seq := 4, ts := 3, type := "trade_close", payload := [] }] = none ↔
      ∀ e ∈ ([{ seq := 1, ts := 0, type := "pnl_snapshot", payload := [] },
         { seq := 2, ts := 1, type := "trade_open", payload := [] },
         { seq := 3, ts := 2, type := "pnl_snapshot", payload := [] },
         { seq := 4, ts := 3, type := "trade_close", payload := [] }] : Log),
        e.type ≠ EVENT_PNL_SNAPSHOT)
    ∧ ∀ e, get_latest_snapshot
        [{ seq := 1, ts := 0, type := "pnl_snapshot", payload := [] },
         { seq := 2, ts := 1, type := "trade_open", payload := [] },
         { seq := 3, ts := 2, type := "pnl_snapshot", payload := [] },
         { seq := 4, ts := 3, type := "trade_close", payload := [] }] = some e →
        e ∈ ([{ seq := 1, ts := 0, type := "pnl_snapshot", payload := [] },
         { seq := 2, ts := 1, type := "trade_open", payload := [] },
         { seq := 3, ts := 2, type := "pnl_snapshot", payload := [] },
         { seq := 4, ts := 3, type := "trade_close", payload := [] }] : Log)
          ∧ e.type = EVENT_PNL_SNAPSHOT
          ∧ ∀ e2 ∈ ([{ seq := 1, ts := 0, type := "pnl_snapshot", payload := [] },
              { seq := 2, ts := 1, type := "trade_open", payload := [] },
              { seq := 3, ts := 2, type := "pnl_snapshot", payload := [] },
              { seq := 4, ts := 3, type := "trade_close", payload := [] }] : Log),
              e2.type = EVENT_PNL_SNAPSHOT → e2.seq ≤ e.seq :=
  C8_latest_snapshot_max_seq _ (by decide)

end AgentOfSats
